import Mathlib

/-!
Shallow embedding of the overlap/minimum-aggregation pipeline of the
mrfylke-trendanalyse repository (the `Veg_TillatProfil` family of scripts),
over exact rationals (`ℚ`) for the scripts' Python floats.

Embedded source functions:
  * `overlap`, `min_or_none`  — `Normaltransport/02_bygg_tillat_profil_v904.py`
    (the same two helpers appear verbatim in `05_klassifiser_aarsak-v2.py`).
  * `buildIdx`, `hitsFor`, `derivedMin` — the index-building cursor loops and
    the per-segment fill loop (`hits_bk`/`hits_bru`/`hits_h`) of
    `02_bygg_tillat_profil_v904.py`.
  * `min_update` — `02_bygg_tillat_profil_v5.py`.
-/

namespace Mrfylke

/-- Tolerance constant `EPS = 1e-9` of `02_bygg_tillat_profil_v904.py` and
`05_klassifiser_aarsak-v2.py`. -/
def EPS : ℚ := 1 / 1000000000

/-- Tolerance constant `EPS = 1e-6` of `Tømmertransport/05_klassifiser_aarsak_v4.py`. -/
def EPS6 : ℚ := 1 / 1000000

/-- Embeds `overlap(a0, a1, b0, b1, strict)` of
`Normaltransport/02_bygg_tillat_profil_v904.py` (identical in
`05_klassifiser_aarsak-v2.py`): `left = max(a0,b0); right = min(a1,b1);
left < right - EPS` when strict, else `left <= right + EPS`. -/
def overlap (a0 a1 b0 b1 : ℚ) (strict : Bool) : Bool :=
  let left := max a0 b0
  let right := min a1 b1
  if strict then decide (left < right - EPS) else decide (left ≤ right + EPS)

/-- Embeds `overlap(a0, a1, b0, b1)` of `Tømmertransport/05_klassifiser_aarsak_v4.py`:
`max(a0, b0) <= min(a1, b1) + EPS` with `EPS = 1e-6`. -/
def overlapV4 (a0 a1 b0 b1 : ℚ) : Bool :=
  decide (max a0 b0 ≤ min a1 b1 + EPS6)

/-- Embeds `min_or_none(vals)`: drop `None`s, return `min` of the rest, or
`None` when nothing is left (`02_bygg_tillat_profil_v904.py`, line 67). -/
def min_or_none (vals : List (Option ℚ)) : Option ℚ :=
  match vals.filterMap id with
  | [] => none
  | x :: xs => some (xs.foldl min x)

/-- Embeds `min_update(cur, val)` of `02_bygg_tillat_profil_v5.py`:
`if val is None: return cur; return val if cur is None else min(cur, val)`. -/
def min_update (cur val : Option ℚ) : Option ℚ :=
  match val with
  | none => cur
  | some v =>
    match cur with
    | none => some v
    | some c => some (min c v)

/-- One restriction row as the index-building cursor loops of
`02_bygg_tillat_profil_v904.py` read it: an optional link id (`VEGLENKESEKV_ID`,
rows with `None` are skipped), raw optional positions (`STARTPOS`, `SLUTTPOS`,
converted by `float(a0 or 0)`), and the optional restriction value
(`TILLATT_TONN` / `BK_VERDI` / `SKILTET_HOYDE` / `MAKS_LENGDE`). -/
structure RawRec where
  vid : Option Int
  a0 : Option ℚ
  a1 : Option ℚ
  val : Option ℚ
  deriving DecidableEq, Repr

/-- The `(a0, a1, value)` triple stored in the index for a row, after the
`float(a0 or 0)` conversions of the cursor loop. -/
def RawRec.entry (r : RawRec) : ℚ × ℚ × Option ℚ :=
  (r.a0.getD 0, r.a1.getD 0, r.val)

/-- One iteration of the index-building loop: `if vid is None: continue;
idx.setdefault(int(vid), []).append((a0, a1, value))`. -/
def idxStep (m : Int → List (ℚ × ℚ × Option ℚ)) (r : RawRec) :
    Int → List (ℚ × ℚ × Option ℚ) :=
  match r.vid with
  | none => m
  | some v => fun k => if k = v then m v ++ [r.entry] else m k

/-- Embeds the index-building loop of `02_bygg_tillat_profil_v904.py`
(lines 131-146): a dict `vid -> list[(a0, a1, value)]` filled by
`idx.setdefault(int(vid), []).append(...)`, skipping rows whose id is `None`;
`idx.get(vid, [])` is modelled by totality with default `[]`. -/
def buildIdx (rows : List RawRec) : Int → List (ℚ × ℚ × Option ℚ) :=
  rows.foldl idxStep (fun _ => [])

/-- Embeds the `hits_bru` collection of the fill loop (lines 225-229 of
`02_bygg_tillat_profil_v904.py`): the values of the indexed records for `vid`
whose interval overlaps the segment `[v0, v1)`; `hits_bk`/`hits_h` are the
same loop with `strict := false`. -/
def hitsFor (idx : Int → List (ℚ × ℚ × Option ℚ)) (vid : Int) (v0 v1 : ℚ)
    (strict : Bool) : List (Option ℚ) :=
  ((idx vid).filter (fun t => overlap v0 v1 t.1 t.2.1 strict)).map (fun t => t.2.2)

/-- The per-segment derived minimum of the fill loop: `min_or_none(hits)` over
the overlapping records of the segment's link (`min_bru = min_or_none(hits_bru)`
etc. in `02_bygg_tillat_profil_v904.py`). -/
def derivedMin (rows : List RawRec) (vid : Int) (v0 v1 : ℚ) (strict : Bool) :
    Option ℚ :=
  min_or_none (hitsFor (buildIdx rows) vid v0 v1 strict)

/-- Spec-side description of the aggregation, written from the claim's words:
the (non-`None`) values of exactly those records whose key matches the
segment's `VEGLENKESEKV_ID` and whose interval overlaps `[v0, v1)` under the
chosen overlap predicate. -/
def matchedVals (rows : List RawRec) (vid : Int) (v0 v1 : ℚ) (strict : Bool) :
    List ℚ :=
  rows.filterMap (fun r =>
    if r.vid = some vid ∧ overlap v0 v1 (r.a0.getD 0) (r.a1.getD 0) strict = true
    then r.val else none)

/-! ### Lemma infrastructure for `min_or_none` -/

/-- Option-valued minimum with `none` as identity: the algebraic shape of
both `min_or_none` and `min_update`. -/
def omin : Option ℚ → Option ℚ → Option ℚ
  | none, b => b
  | some a, none => some a
  | some a, some b => some (min a b)

theorem omin_none_right (a : Option ℚ) : omin a none = a := by
  cases a <;> rfl

theorem omin_assoc (a b c : Option ℚ) :
    omin (omin a b) c = omin a (omin b c) := by
  cases a <;> cases b <;> cases c <;> simp [omin, min_assoc]

theorem min_update_eq_omin (cur val : Option ℚ) :
    min_update cur val = omin cur val := by
  cases cur <;> cases val <;> rfl

theorem foldl_min_comm (l : List ℚ) : ∀ a b : ℚ,
    l.foldl min (min a b) = min a (l.foldl min b) := by
  induction l with
  | nil => intro a b; rfl
  | cons c t ih =>
    intro a b
    show t.foldl min (min (min a b) c) = min a (t.foldl min (min b c))
    rw [min_assoc, ih]

theorem min_or_none_nil : min_or_none [] = none := rfl

theorem min_or_none_cons (v : Option ℚ) (l : List (Option ℚ)) :
    min_or_none (v :: l) = omin v (min_or_none l) := by
  cases v with
  | none => rfl
  | some x =>
    show (match x :: l.filterMap id with
      | [] => none
      | y :: ys => some (ys.foldl min y)) = omin (some x) (min_or_none l)
    cases h : l.filterMap id with
    | nil => simp [min_or_none, h, omin]
    | cons y ys =>
      simp only [min_or_none, h, omin]
      show some ((y :: ys).foldl min x) = some (min x (ys.foldl min y))
      show some (ys.foldl min (min x y)) = some (min x (ys.foldl min y))
      rw [foldl_min_comm]

theorem min_or_none_append (l₁ l₂ : List (Option ℚ)) :
    min_or_none (l₁ ++ l₂) = omin (min_or_none l₁) (min_or_none l₂) := by
  induction l₁ with
  | nil => simp [min_or_none_nil, omin]
  | cons v t ih =>
    simp only [List.cons_append, min_or_none_cons, ih, omin_assoc]

theorem min_or_none_eq_none_iff (l : List (Option ℚ)) :
    min_or_none l = none ↔ l.filterMap id = [] := by
  unfold min_or_none
  cases h : l.filterMap id <;> simp

/-- The value `min_or_none` returns is one of the non-`None` inputs and a
lower bound for all of them. -/
theorem min_or_none_spec (l : List (Option ℚ)) : ∀ (m : ℚ),
    min_or_none l = some m →
    m ∈ l.filterMap id ∧ ∀ x ∈ l.filterMap id, m ≤ x := by
  induction l with
  | nil => intro m hm; simp [min_or_none_nil] at hm
  | cons v t ih =>
    intro m hm
    rw [min_or_none_cons] at hm
    cases v with
    | none =>
      simp only [omin] at hm
      have h := ih m hm
      simpa using h
    | some x =>
      cases h : min_or_none t with
      | none =>
        rw [h] at hm
        simp only [omin, Option.some.injEq] at hm
        have ht : t.filterMap id = [] := (min_or_none_eq_none_iff t).mp h
        subst hm
        simp [List.filterMap_cons, ht]
      | some y =>
        rw [h] at hm
        simp only [omin, Option.some.injEq] at hm
        obtain ⟨hy_mem, hy_le⟩ := ih y h
        subst hm
        constructor
        · rcases min_cases x y with ⟨he, _⟩ | ⟨he, _⟩ <;> rw [he]
          · simp [List.filterMap_cons]
          · simp only [List.filterMap_cons, id]
            exact List.mem_cons_of_mem x hy_mem
        · intro z hz
          simp only [List.filterMap_cons, id] at hz
          rcases List.mem_cons.mp hz with rfl | hz'
          · exact min_le_left _ _
          · exact le_trans (min_le_right _ _) (hy_le z hz')

/-- Converse: a member that bounds every non-`None` input from below is the
value `min_or_none` returns. -/
theorem min_or_none_eq_some_of_spec (l : List (Option ℚ)) (m : ℚ)
    (hmem : m ∈ l.filterMap id) (hle : ∀ x ∈ l.filterMap id, m ≤ x) :
    min_or_none l = some m := by
  cases h : min_or_none l with
  | none =>
    rw [min_or_none_eq_none_iff] at h
    rw [h] at hmem
    simp at hmem
  | some m' =>
    obtain ⟨hmem', hle'⟩ := min_or_none_spec l m' h
    have h1 : m ≤ m' := hle m' hmem'
    have h2 : m' ≤ m := hle' m hmem
    rw [le_antisymm h2 h1]

/-- `min_or_none` only depends on the multiset of its inputs. -/
theorem min_or_none_perm {l₁ l₂ : List (Option ℚ)} (hp : l₁.Perm l₂) :
    min_or_none l₁ = min_or_none l₂ := by
  have hfm : (l₁.filterMap id).Perm (l₂.filterMap id) := hp.filterMap id
  cases h : min_or_none l₁ with
  | none =>
    rw [min_or_none_eq_none_iff] at h
    have h₂ : l₂.filterMap id = [] := ((h ▸ hfm).symm).eq_nil
    exact ((min_or_none_eq_none_iff l₂).mpr h₂).symm
  | some m =>
    obtain ⟨hmem, hle⟩ := min_or_none_spec l₁ m h
    exact (min_or_none_eq_some_of_spec l₂ m (hfm.mem_iff.mp hmem)
      (fun x hx => hle x (hfm.mem_iff.mpr hx))).symm

/-! ### The index lookup -/

theorem foldl_idxStep_lookup (rows : List RawRec) :
    ∀ (m : Int → List (ℚ × ℚ × Option ℚ)) (k : Int),
    (rows.foldl idxStep m) k
      = m k ++ (rows.filter (fun r => r.vid = some k)).map RawRec.entry := by
  induction rows with
  | nil => intro m k; simp
  | cons r rows ih =>
    intro m k
    show (rows.foldl idxStep (idxStep m r)) k = _
    rw [ih]
    cases hv : r.vid with
    | none =>
      simp [idxStep, hv, List.filter_cons]
    | some v =>
      by_cases hk : k = v
      · subst hk
        have hvk : r.vid = some k := hv
        simp [idxStep, hv, List.filter_cons, hvk]
      · have hne : ¬ (r.vid = some k) := by
          rw [hv]; intro hc; exact hk (Option.some.inj hc).symm
        have hvk : ¬ (v = k) := fun hc => hk hc.symm
        simp [idxStep, hv, List.filter_cons, hne, hvk, if_neg hk]

/-- `idx.get(vid, [])` after the index-building loop holds exactly the
entries of the rows with that id, in input order. -/
theorem buildIdx_lookup (rows : List RawRec) (k : Int) :
    buildIdx rows k = (rows.filter (fun r => r.vid = some k)).map RawRec.entry := by
  unfold buildIdx
  rw [foldl_idxStep_lookup]
  rfl

/-- The non-`None` hits of the fill loop are exactly the values of the
matching, overlapping records. -/
theorem hits_filterMap_eq_matchedVals (rows : List RawRec) (vid : Int)
    (v0 v1 : ℚ) (strict : Bool) :
    (hitsFor (buildIdx rows) vid v0 v1 strict).filterMap id
      = matchedVals rows vid v0 v1 strict := by
  unfold hitsFor matchedVals
  rw [buildIdx_lookup, List.filterMap_map, List.filter_map, List.filterMap_map,
    List.filter_filter, List.filterMap_filter]
  refine List.filterMap_congr (fun r _ => ?_)
  by_cases hK : r.vid = some vid
  · by_cases hP : overlap v0 v1 (r.a0.getD 0) (r.a1.getD 0) strict = true
    · simp [RawRec.entry, hK, hP, Function.comp]
    · simp [RawRec.entry, hK, hP, Function.comp]
  · simp [RawRec.entry, hK, Function.comp]

theorem map_some_filterMap (L : List ℚ) : (L.map some).filterMap id = L := by
  induction L with
  | nil => rfl
  | cons x t ih => simp [List.filterMap_cons, ih]

/-- `min_or_none` is a function of the non-`None` inputs alone. -/
theorem min_or_none_eq_of_filterMap {l₁ l₂ : List (Option ℚ)}
    (h : l₁.filterMap id = l₂.filterMap id) :
    min_or_none l₁ = min_or_none l₂ := by
  unfold min_or_none
  rw [h]

/-- The derived per-segment minimum as the minimum over the matched values. -/
theorem derivedMin_eq_min_matched (rows : List RawRec) (vid : Int)
    (v0 v1 : ℚ) (strict : Bool) :
    derivedMin rows vid v0 v1 strict
      = min_or_none ((matchedVals rows vid v0 v1 strict).map some) := by
  unfold derivedMin
  refine min_or_none_eq_of_filterMap ?_
  rw [hits_filterMap_eq_matchedVals, map_some_filterMap]

/-! ### Claims C1 and C2 -/

/-- C1: for every target segment and collection of restriction records, the
derived value equals the minimum of the non-`None` values of exactly those
records whose key matches the segment's `VEGLENKESEKV_ID` and whose interval
overlaps `[STARTPOS, SLUTTPOS)` under the chosen overlap predicate; a record
that does not match or does not overlap has no influence; with no overlapping
non-`None` record the derived value is `None`. -/
theorem c1_overlap_min_aggregator (rows : List RawRec) (vid : Int)
    (v0 v1 : ℚ) (strict : Bool) :
    (derivedMin rows vid v0 v1 strict = none
       ↔ matchedVals rows vid v0 v1 strict = [])
    ∧ (∀ m : ℚ, derivedMin rows vid v0 v1 strict = some m
       ↔ m ∈ matchedVals rows vid v0 v1 strict
         ∧ ∀ x ∈ matchedVals rows vid v0 v1 strict, m ≤ x)
    ∧ (∀ r : RawRec,
        (¬ (r.vid = some vid
            ∧ overlap v0 v1 (r.a0.getD 0) (r.a1.getD 0) strict = true)) →
        derivedMin (rows ++ [r]) vid v0 v1 strict
          = derivedMin rows vid v0 v1 strict) := by
  refine ⟨?_, ?_, ?_⟩
  · rw [derivedMin, min_or_none_eq_none_iff, hits_filterMap_eq_matchedVals]
  · intro m
    constructor
    · intro h
      have hs := min_or_none_spec _ m h
      rwa [hits_filterMap_eq_matchedVals] at hs
    · rintro ⟨hmem, hle⟩
      rw [derivedMin]
      refine min_or_none_eq_some_of_spec _ m ?_ ?_
      · rwa [hits_filterMap_eq_matchedVals]
      · rwa [hits_filterMap_eq_matchedVals]
  · intro r hr
    have hmv : matchedVals (rows ++ [r]) vid v0 v1 strict
        = matchedVals rows vid v0 v1 strict := by
      unfold matchedVals
      rw [List.filterMap_append]
      simp [hr]
    rw [derivedMin_eq_min_matched, derivedMin_eq_min_matched, hmv]

/-- C2: adding one more record can only lower or keep the derived minimum —
in particular the result stays defined and never increases. -/
theorem c2_min_monotone (rows : List RawRec) (r : RawRec) (vid : Int)
    (v0 v1 : ℚ) (strict : Bool) (m : ℚ)
    (hm : derivedMin rows vid v0 v1 strict = some m) :
    ∃ m' : ℚ, derivedMin (rows ++ [r]) vid v0 v1 strict = some m' ∧ m' ≤ m := by
  have hmv : matchedVals (rows ++ [r]) vid v0 v1 strict
      = matchedVals rows vid v0 v1 strict ++ matchedVals [r] vid v0 v1 strict := by
    unfold matchedVals
    rw [List.filterMap_append]
  rw [derivedMin_eq_min_matched] at hm ⊢
  rw [hmv, List.map_append, min_or_none_append, hm]
  cases h2 : min_or_none ((matchedVals [r] vid v0 v1 strict).map some) with
  | none => exact ⟨m, rfl, le_refl m⟩
  | some y => exact ⟨min m y, rfl, min_le_left m y⟩

/-- Witness for C2: a road-weight record of 40 on link 5 over `[0, 100)`, then
a bridge record of 35 over `[55, 58)` is added; the derived minimum drops
from 40 to a value at most 40. -/
theorem c2_min_monotone_witness :
    ∃ m' : ℚ,
      derivedMin [⟨some 5, some 0, some 100, some 40⟩,
                  ⟨some 5, some 55, some 58, some 35⟩] 5 0 100 true = some m'
      ∧ m' ≤ 40 :=
  c2_min_monotone [⟨some 5, some 0, some 100, some 40⟩]
    ⟨some 5, some 55, some 58, some 35⟩ 5 0 100 true 40 (by
      have h1 : overlap 0 100 0 100 true = true := by
        simp [overlap, EPS]
        norm_num
      unfold derivedMin hitsFor buildIdx idxStep
      simp [RawRec.entry, h1, min_or_none, List.filterMap_cons])

/-! ### Claims C5 and C6: the overlap predicate -/

/-- Counterexample to C5 as stated: with the segment `[0,1)` and the
restriction `[0, 2^-31)` we have `max(v0,a0) < min(v1,a1)` and yet the strict
predicate is false (the gap is below `EPS = 1e-9`); with the restriction
`[1 + 2^-31, 2)` we have `¬ (max(v0,a0) <= min(v1,a1))` and yet the inclusive
predicate is true. -/
theorem c5_overlap_counterexample :
    ((max (0:ℚ) 0 < min 1 (1/2147483648))
      ∧ overlap 0 1 0 (1/2147483648) true = false)
    ∧ ((¬ (max (0:ℚ) (1 + 1/2147483648) ≤ min 1 2))
      ∧ overlap 0 1 (1 + 1/2147483648) 2 false = true) := by
  refine ⟨⟨?_, ?_⟩, ⟨?_, ?_⟩⟩
  · norm_num
  · simp [overlap, EPS]
    norm_num
  · norm_num
  · simp [overlap, EPS]
    norm_num

/-- C5 (amended): the strict overlap predicate holds exactly when
`max(v0,a0) < min(v1,a1) - EPS`, the inclusive variant exactly when
`max(v0,a0) <= min(v1,a1) + EPS`; the v4 variant is inclusive with its own
`EPS = 1e-6`. -/
theorem c5_overlap_eps (v0 v1 a0 a1 : ℚ) :
    (overlap v0 v1 a0 a1 true = true ↔ max v0 a0 < min v1 a1 - EPS)
    ∧ (overlap v0 v1 a0 a1 false = true ↔ max v0 a0 ≤ min v1 a1 + EPS)
    ∧ (overlapV4 v0 v1 a0 a1 = true ↔ max v0 a0 ≤ min v1 a1 + EPS6) := by
  refine ⟨?_, ?_, ?_⟩ <;> simp [overlap, overlapV4]

/-- C6: a zero-length segment (`v1 <= v0`) strictly overlaps nothing, and a
boundary-touching restriction (`a1 == v0`, written here as the interval
`[u0, w0)` against the segment `[w0, w1)`) is excluded by the strict
predicate but included by the inclusive one. -/
theorem c6_overlap_edge_cases (v0 v1 a0 a1 w0 w1 u0 : ℚ)
    (hz : v1 ≤ v0) (hu : u0 ≤ w0) (hw : w0 ≤ w1) :
    overlap v0 v1 a0 a1 true = false
    ∧ overlap w0 w1 u0 w0 true = false
    ∧ overlap w0 w1 u0 w0 false = true := by
  have hE : (0:ℚ) < EPS := by norm_num [EPS]
  refine ⟨?_, ?_, ?_⟩
  · have hlt : ¬ (max v0 a0 < min v1 a1 - EPS) := by
      have h1 : min v1 a1 ≤ v1 := min_le_left v1 a1
      have h2 : v0 ≤ max v0 a0 := le_max_left v0 a0
      intro hc
      rw [lt_sub_iff_add_lt] at hc
      linarith
    simp [overlap, hlt]
  · have hlt : ¬ (max w0 u0 < min w1 w0 - EPS) := by
      rw [max_eq_left hu, min_eq_right hw]
      intro hc
      rw [lt_sub_iff_add_lt] at hc
      linarith
    simp [overlap, hlt]
  · have hle : max w0 u0 ≤ min w1 w0 + EPS := by
      rw [max_eq_left hu, min_eq_right hw]
      linarith
    simp [overlap, hle]

/-- Witness for C6: the zero-length segment `[2,2)` against `[0,5)`, and the
touching pair: segment `[3,7)`, restriction `[1,3)`. -/
theorem c6_overlap_edge_cases_witness :
    overlap 2 2 0 5 true = false
    ∧ overlap 3 7 1 3 true = false
    ∧ overlap 3 7 1 3 false = true :=
  c6_overlap_edge_cases 2 2 0 5 3 7 1 (by norm_num) (by norm_num) (by norm_num)

/-! ### The margins-based classifier of `02_bygg_tillat_profil_v5.py` -/

/-- The per-link minima `collect_stats` hands to `build_profile`
(`02_bygg_tillat_profil_v5.py`, class `Stats`). -/
structure Stats where
  veg_tonn : Option ℚ
  bru_tonn : Option ℚ
  maks_len : Option ℚ
  min_hoy : Option ℚ
  deriving DecidableEq, Repr

/-- The vehicle-profile thresholds `krav` (`config.KJORETOY_TOMMER`-shaped
dict with keys TONN, LENGDE, HOYDE). -/
structure Krav where
  tonn : ℚ
  lengde : ℚ
  hoyde : ℚ
  deriving DecidableEq, Repr

/-- `(value - threshold) if value is not None else inf`; the absent case
(`inf`) is modelled as `none`. -/
def margin (v : Option ℚ) (t : ℚ) : Option ℚ := v.map (fun x => x - t)

/-- Less-than on margins with `none` as `+inf`: a finite value is below
`inf`, `inf` is below nothing (as for IEEE `inf` in the Python source). -/
def margLt (a b : Option ℚ) : Bool :=
  match a, b with
  | none, _ => false
  | some _, none => true
  | some x, some y => decide (x < y)

/-- The `margins` dict of `build_profile` (`02_bygg_tillat_profil_v5.py`
lines 125-131) in its insertion order VEG, BRU, LENGDE, HOYDE. -/
def marginsList (s : Stats) (krav : Krav) : List (String × Option ℚ) :=
  [("VEG", margin s.veg_tonn krav.tonn),
   ("BRU", margin s.bru_tonn krav.tonn),
   ("LENGDE", margin s.maks_len krav.lengde),
   ("HOYDE", margin s.min_hoy krav.hoyde)]

/-- Python's `min(items, key=lambda kv: kv[1])` on a non-empty list: scan
left to right, replace the current best only on a strictly smaller key, so
the first minimum wins. -/
def pyMinByVal (x : String × Option ℚ) (xs : List (String × Option ℚ)) :
    String × Option ℚ :=
  xs.foldl (fun b y => if margLt y.2 b.2 then y else b) x

/-- `row[8] = min(margins.items(), key=lambda kv: kv[1])[0]` of
`build_profile`. The `[]` branch is dead: `marginsList` always has four
entries (Python's `min` would raise on an empty dict). -/
def dimKilde (s : Stats) (krav : Krav) : String :=
  match marginsList s krav with
  | [] => "VEG"
  | x :: xs => (pyMinByVal x xs).1

/-- `v is not None and v < t`, the bottleneck-flag test of `build_profile`. -/
def ltKrav (v : Option ℚ) (t : ℚ) : Bool :=
  match v with
  | none => false
  | some x => decide (x < t)

/-- `"JA" if b else "NEI"`. -/
def jaNei (b : Bool) : String := if b then "JA" else "NEI"

/-- The row `build_profile` writes for one link (`02_bygg_tillat_profil_v5.py`
lines 103-134): propagated values, four bottleneck flags, `DIM_KILDE`. -/
structure ProfileRow where
  tillatt_tonn : Option ℚ
  maks_lengde : Option ℚ
  min_hoyde : Option ℚ
  fh_veg : String
  fh_bru : String
  fh_len : String
  fh_hoy : String
  dim_kilde : String
  deriving DecidableEq, Repr

/-- The body of the update cursor of `build_profile` for a link with stats
`s`. -/
def build_profile_row (s : Stats) (krav : Krav) : ProfileRow :=
  { tillatt_tonn := s.veg_tonn
    maks_lengde := s.maks_len
    min_hoyde := s.min_hoy
    fh_veg := jaNei (ltKrav s.veg_tonn krav.tonn)
    fh_bru := jaNei (ltKrav s.bru_tonn krav.tonn)
    fh_len := jaNei (ltKrav s.maks_len krav.lengde)
    fh_hoy := jaNei (ltKrav s.min_hoy krav.hoyde)
    dim_kilde := dimKilde s krav }

/-! ### The tag-based classifier of `05_klassifiser_aarsak-v2.py` -/

/-- The `tags` list of the classification loop (`05_klassifiser_aarsak-v2.py`
lines 152-173): the weight block (tie => both BRU and VEG), then the LENGDE
and HØYDE threshold tags. -/
def aarsakTags (veg_bk bru_tonn maks_len fri_hoyde : Option ℚ)
    (vekt_krav lengde_krav hoyde_krav : ℚ) : List String :=
  (match min_or_none [veg_bk, bru_tonn] with
   | none => []
   | some dims_val =>
     if dims_val < vekt_krav then
       match veg_bk, bru_tonn with
       | some v, some b =>
         if v = b then ["BRU", "VEG"]
         else if b < v then ["BRU"] else ["VEG"]
       | none, some _ => ["BRU"]
       | some _, none => ["VEG"]
       | none, none => ["VEG"]
     else [])
  ++ (match maks_len with
      | some l => if l < lengde_krav then ["LENGDE"] else []
      | none => [])
  ++ (match fri_hoyde with
      | some h => if h < hoyde_krav then ["HØYDE"] else []
      | none => [])

/-- `aarsak = "OK" if not tags else ", ".join(tags)`. -/
def aarsak (veg_bk bru_tonn maks_len fri_hoyde : Option ℚ)
    (vekt_krav lengde_krav hoyde_krav : ℚ) : String :=
  let tags := aarsakTags veg_bk bru_tonn maks_len fri_hoyde
    vekt_krav lengde_krav hoyde_krav
  if tags.isEmpty then "OK" else String.intercalate ", " tags

/-- Embeds `dims_kilde_for_segment(bk, bru)` of `02_bygg_tillat_profil.py`
(lines 58-70, identical in `03_segmenter_og_propager.py`): "BRU" when the
bridge is dimensioning (`bru <= bk`, or only the bridge value exists),
else "VEG"; `None` when neither value exists. -/
def dims_kilde_for_segment (bk bru : Option ℚ) : Option String :=
  match bk, bru with
  | none, none => none
  | none, some _ => some "BRU"
  | some _, none => some "VEG"
  | some bkv, some bruv => if bruv ≤ bkv then some "BRU" else some "VEG"

/-! ### Minimality of the margins scan -/

theorem margLt_irrefl (a : Option ℚ) : margLt a a = false := by
  cases a <;> simp [margLt]

theorem margLt_trans {a b c : Option ℚ} (hab : margLt a b = true)
    (hbc : margLt b c = true) : margLt a c = true := by
  cases a <;> cases b <;> cases c <;> simp_all [margLt]
  linarith

theorem margLt_not_lt_trans {a b c : Option ℚ} (hba : margLt b a = false)
    (hcb : margLt c b = false) : margLt c a = false := by
  cases a <;> cases b <;> cases c <;> simp_all [margLt]
  linarith

/-- The pair Python's `min(..., key=...)` picks belongs to the list, and no
list entry has a strictly smaller value. -/
theorem pyMinByVal_spec (xs : List (String × Option ℚ)) :
    ∀ (x : String × Option ℚ),
    pyMinByVal x xs ∈ x :: xs
    ∧ ∀ p ∈ x :: xs, margLt p.2 (pyMinByVal x xs).2 = false := by
  induction xs with
  | nil =>
    intro x
    refine ⟨List.mem_singleton.mpr rfl, ?_⟩
    intro p hp
    rw [List.mem_singleton.mp hp]
    exact margLt_irrefl _
  | cons y ys ih =>
    intro x
    have hstep : pyMinByVal x (y :: ys)
        = pyMinByVal (if margLt y.2 x.2 then y else x) ys := rfl
    by_cases hyx : margLt y.2 x.2 = true
    · rw [hstep, if_pos hyx]
      obtain ⟨hmem, hbnd⟩ := ih y
      constructor
      · rcases List.mem_cons.mp hmem with h | h
        · rw [h]; simp
        · simp [List.mem_cons, h]
      · intro p hp
        rcases List.mem_cons.mp hp with h | hp'
        · rw [h]
          have hy := hbnd y (List.mem_cons_self y ys)
          cases hres : margLt x.2 (pyMinByVal y ys).2 with
          | false => rfl
          | true => exact absurd (margLt_trans hyx hres) (ne_true_of_eq_false hy)
        · exact hbnd p hp'
    · rw [hstep, if_neg hyx]
      obtain ⟨hmem, hbnd⟩ := ih x
      constructor
      · rcases List.mem_cons.mp hmem with h | h
        · rw [h]; simp
        · simp [List.mem_cons, h]
      · intro p hp
        rcases List.mem_cons.mp hp with h | hp'
        · rw [h]
          exact hbnd x (List.mem_cons_self x ys)
        · rcases List.mem_cons.mp hp' with h' | hp''
          · rw [h']
            have hx := hbnd x (List.mem_cons_self x ys)
            have hyx' : margLt y.2 x.2 = false := by simpa using hyx
            exact margLt_not_lt_trans hx hyx'
          · exact hbnd p (List.mem_cons_of_mem x hp'')

/-! ### Claims C3, C4 and C10: the dimensioning-cause classifiers -/

/-- Counterexample to C3 as stated: road weight 40, bridge weight 40 and
threshold 50 is an exact bridge/road tie that crosses the threshold, yet the
margins-based classifier labels it "VEG", not "BRU, VEG". -/
theorem c3_classifier_counterexample :
    dimKilde ⟨some 40, some 40, none, none⟩ ⟨50, 24, 9/2⟩ = "VEG"
    ∧ ("VEG" : String) ≠ "BRU, VEG" := by
  constructor
  · simp [dimKilde, marginsList, pyMinByVal, margin, margLt]
  · decide

/-- C3 (amended): the margins-based classifier picks a category of minimal
margin, the first one in dict order VEG, BRU, LENGDE, HOYDE on ties — so an
exact bridge/road weight tie yields "VEG"; it is the separate tag-based
step-05 classifier that reports "BRU, VEG" on an exact tie crossing the
weight threshold. -/
theorem c3_classifier_rule (s : Stats) (krav : Krav) (x vkr lkr hkr : ℚ)
    (hx : x < vkr) :
    (∃ mv, (dimKilde s krav, mv) ∈ marginsList s krav
        ∧ ∀ p ∈ marginsList s krav, margLt p.2 mv = false)
    ∧ dimKilde ⟨some x, some x, none, none⟩ ⟨vkr, lkr, hkr⟩ = "VEG"
    ∧ aarsak (some x) (some x) none none vkr lkr hkr = "BRU, VEG" := by
  refine ⟨?_, ?_, ?_⟩
  · obtain ⟨hmem, hbnd⟩ := pyMinByVal_spec
      [("BRU", margin s.bru_tonn krav.tonn),
       ("LENGDE", margin s.maks_len krav.lengde),
       ("HOYDE", margin s.min_hoy krav.hoyde)]
      ("VEG", margin s.veg_tonn krav.tonn)
    refine ⟨(pyMinByVal ("VEG", margin s.veg_tonn krav.tonn)
      [("BRU", margin s.bru_tonn krav.tonn),
       ("LENGDE", margin s.maks_len krav.lengde),
       ("HOYDE", margin s.min_hoy krav.hoyde)]).2, ?_, ?_⟩
    · exact hmem
    · intro p hp
      exact hbnd p hp
  · simp [dimKilde, marginsList, pyMinByVal, margin, margLt]
  · unfold aarsak aarsakTags
    rw [min_or_none_cons, min_or_none_cons, min_or_none_nil]
    simp only [omin, min_self, hx, if_true, if_pos, List.append_nil]
    simp [hx]
    rfl

/-- Witness for C3: road 40, bridge 40, thresholds (50, 24, 4.5). -/
theorem c3_classifier_rule_witness :
    (∃ mv, (dimKilde ⟨some 40, some 40, none, none⟩ ⟨50, 24, 9/2⟩, mv)
        ∈ marginsList ⟨some 40, some 40, none, none⟩ ⟨50, 24, 9/2⟩
        ∧ ∀ p ∈ marginsList ⟨some 40, some 40, none, none⟩ ⟨50, 24, 9/2⟩,
            margLt p.2 mv = false)
    ∧ dimKilde ⟨some 40, some 40, none, none⟩ ⟨50, 24, 9/2⟩ = "VEG"
    ∧ aarsak (some 40) (some 40) none none 50 24 (9/2) = "BRU, VEG" :=
  c3_classifier_rule ⟨some 40, some 40, none, none⟩ ⟨50, 24, 9/2⟩
    40 50 24 (9/2) (by norm_num)

/-- Counterexample to C4 as stated: bridge weight = road weight = 30, both
below every relevant threshold — the margins-based classifier (cited as a
source of the claim) labels the tie "VEG", not the bridge-wins "BRU". -/
theorem c4_tiebreak_counterexample :
    dimKilde ⟨some 30, some 30, none, none⟩ ⟨50, 24, 9/2⟩ = "VEG"
    ∧ ("VEG" : String) ≠ "BRU" := by
  constructor
  · simp [dimKilde, marginsList, pyMinByVal, margin, margLt]
  · decide

/-- C4 (amended): `dims_kilde_for_segment` deterministically reports the
bridge ("BRU") on an exact tie; the per-segment minima (hence every label
computed from them) are independent of the ordering of the restriction
records; the margins-based classifier of `02_bygg_tillat_profil_v5.py`
instead resolves an exact tie to "VEG". -/
theorem c4_tiebreak_determinism (x y : ℚ) (rows rows' : List RawRec)
    (hp : rows.Perm rows') (vid : Int) (v0 v1 : ℚ) (strict : Bool)
    (krav : Krav) :
    dims_kilde_for_segment (some x) (some x) = some "BRU"
    ∧ derivedMin rows vid v0 v1 strict = derivedMin rows' vid v0 v1 strict
    ∧ dimKilde ⟨some y, some y, none, none⟩ krav = "VEG" := by
  refine ⟨?_, ?_, ?_⟩
  · simp [dims_kilde_for_segment]
  · rw [derivedMin_eq_min_matched, derivedMin_eq_min_matched]
    exact min_or_none_perm ((hp.filterMap
      (fun r => if r.vid = some vid
        ∧ overlap v0 v1 (r.a0.getD 0) (r.a1.getD 0) strict = true
        then r.val else none)).map some)
  · simp [dimKilde, marginsList, pyMinByVal, margin, margLt]

/-- Witness for C4: two records on link 7 in both orders. -/
theorem c4_tiebreak_determinism_witness :
    dims_kilde_for_segment (some 40) (some 40) = some "BRU"
    ∧ derivedMin [⟨some 7, some 0, some 1, some 50⟩,
                  ⟨some 7, some (1/2), some (3/4), some 30⟩] 7 0 1 true
      = derivedMin [⟨some 7, some (1/2), some (3/4), some 30⟩,
                    ⟨some 7, some 0, some 1, some 50⟩] 7 0 1 true
    ∧ dimKilde ⟨some 25, some 25, none, none⟩ ⟨50, 24, 9/2⟩ = "VEG" :=
  c4_tiebreak_determinism 40 25
    [⟨some 7, some 0, some 1, some 50⟩, ⟨some 7, some (1/2), some (3/4), some 30⟩]
    [⟨some 7, some (1/2), some (3/4), some 30⟩, ⟨some 7, some 0, some 1, some 50⟩]
    (List.Perm.swap _ _ _) 7 0 1 true ⟨50, 24, 9/2⟩

/-- C10: a link whose four constraint values are all `None` gets every margin
equal to `inf` (modelled `none`), all four bottleneck flags "NEI", and
`DIM_KILDE = "VEG"`, the first dictionary key. -/
theorem c10_unconstrained_link (krav : Krav) :
    marginsList ⟨none, none, none, none⟩ krav
      = [("VEG", none), ("BRU", none), ("LENGDE", none), ("HOYDE", none)]
    ∧ build_profile_row ⟨none, none, none, none⟩ krav
      = ⟨none, none, none, "NEI", "NEI", "NEI", "NEI", "VEG"⟩ :=
  ⟨rfl, rfl⟩

/-! ### Claim C7: corridor propagation (`03_segmenter_og_propager.py`) -/

/-- One `Veg_TillatProfil` row as the stats loop of
`03_segmenter_og_propager.py` reads it: `VEGLENKESEKV_ID`, `TILLATT_TONN`,
`BK_VERDI`, `MIN_BRU_TONN`, `MAKS_LENGDE`, `MIN_HOYDE`. -/
structure SegRow where
  vid : Int
  tonn : Option ℚ
  bk : Option ℚ
  bru : Option ℚ
  len : Option ℚ
  hoy : Option ℚ
  deriving DecidableEq, Repr

/-- The per-link accumulator dict of the stats loop. -/
structure LinkStats where
  tonn : Option ℚ
  len : Option ℚ
  hoy : Option ℚ
  has_bru_dim : Bool
  has_any : Bool
  deriving DecidableEq, Repr

/-- The fresh entry `{"tonn": None, "len": None, "hoy": None,
"has_bru_dim": False, "has_any": False}`. -/
def LinkStats.init : LinkStats := ⟨none, none, none, false, false⟩

/-- The body of the stats loop for one row: `s["has_any"] = True`; for each of
tonn/len/hoy, `if x is not None: s[k] = x if s[k] is None else min(s[k], x)`;
and `if dims_kilde_for_segment(bk, bru) == "BRU": s["has_bru_dim"] = True`. -/
def statStep (s : LinkStats) (r : SegRow) : LinkStats :=
  { has_any := true
    tonn :=
      match r.tonn, s.tonn with
      | none, c => c
      | some t, none => some t
      | some t, some c => some (min c t)
    len :=
      match r.len, s.len with
      | none, c => c
      | some t, none => some t
      | some t, some c => some (min c t)
    hoy :=
      match r.hoy, s.hoy with
      | none, c => c
      | some t, none => some t
      | some t, some c => some (min c t)
    has_bru_dim :=
      s.has_bru_dim || decide (dims_kilde_for_segment r.bk r.bru = some "BRU") }

/-- One loop iteration over the dict `stats`: fetch-or-create the entry for
the row's id, then mutate it with `statStep`. -/
def statMapStep (m : Int → Option LinkStats) (r : SegRow) :
    Int → Option LinkStats :=
  fun k => if k = r.vid then some (statStep ((m r.vid).getD LinkStats.init) r)
           else m k

/-- The stats dict after the whole loop of `03_segmenter_og_propager.py`
(lines 83-116). -/
def collectStats (rows : List SegRow) : Int → Option LinkStats :=
  rows.foldl statMapStep (fun _ => none)

/-- The korridor `DIM_KILDE` update (lines 202-206):
`"BRU" if (s and s["has_bru_dim"]) else "VEG"`. -/
def korridorDim (stats : Int → Option LinkStats) (vid : Int) : String :=
  match stats vid with
  | some s => if s.has_bru_dim then "BRU" else "VEG"
  | none => "VEG"

/-- What the segment-output update loop (lines 144-171) writes into one row:
the propagated minima, the link-level `DIM_KILDE` and the `PROPAGERT` flag;
a missing or empty stats entry leaves the fresh fields `None` and flags
`PROPAGERT = "NEI"`. -/
structure SegOut where
  tonn_prop : Option ℚ
  len_prop : Option ℚ
  hoy_prop : Option ℚ
  dim : Option String
  prop : String
  deriving DecidableEq, Repr

def segOutFor (stats : Int → Option LinkStats) (r : SegRow) : SegOut :=
  match stats r.vid with
  | none => ⟨none, none, none, none, "NEI"⟩
  | some s =>
    if s.has_any then
      ⟨s.tonn, s.len, s.hoy, some (if s.has_bru_dim then "BRU" else "VEG"), "JA"⟩
    else ⟨none, none, none, none, "NEI"⟩

/-! #### Lookup and component lemmas for the stats fold -/

theorem foldl_statMapStep_lookup (rows : List SegRow) :
    ∀ (m : Int → Option LinkStats) (k : Int),
    (rows.foldl statMapStep m) k
      = (rows.filter (fun r => r.vid = k)).foldl
          (fun acc r => some (statStep (acc.getD LinkStats.init) r)) (m k) := by
  induction rows with
  | nil => intro m k; rfl
  | cons r rows ih =>
    intro m k
    show (rows.foldl statMapStep (statMapStep m r)) k = _
    rw [ih]
    by_cases hk : k = r.vid
    · subst hk
      simp [statMapStep, List.filter_cons]
    · have hk' : ¬ (r.vid = k) := fun hc => hk hc.symm
      simp [statMapStep, List.filter_cons, hk, hk']

theorem foldl_optStep (l : List SegRow) :
    ∀ (s : LinkStats),
    l.foldl (fun acc r => some (statStep (acc.getD LinkStats.init) r)) (some s)
      = some (l.foldl statStep s) := by
  induction l with
  | nil => intro s; rfl
  | cons r t ih => intro s; exact ih (statStep s r)

theorem statStep_tonn (s : LinkStats) (r : SegRow) :
    (statStep s r).tonn = min_update s.tonn r.tonn := by
  cases hr : r.tonn <;> cases hs : s.tonn <;> simp [statStep, min_update, hr, hs]

theorem statStep_len (s : LinkStats) (r : SegRow) :
    (statStep s r).len = min_update s.len r.len := by
  cases hr : r.len <;> cases hs : s.len <;> simp [statStep, min_update, hr, hs]

theorem statStep_hoy (s : LinkStats) (r : SegRow) :
    (statStep s r).hoy = min_update s.hoy r.hoy := by
  cases hr : r.hoy <;> cases hs : s.hoy <;> simp [statStep, min_update, hr, hs]

theorem foldl_min_update (vals : List (Option ℚ)) :
    ∀ (c : Option ℚ), vals.foldl min_update c = omin c (min_or_none vals) := by
  induction vals with
  | nil => intro c; rw [min_or_none_nil, omin_none_right]; rfl
  | cons v t ih =>
    intro c
    show t.foldl min_update (min_update c v) = _
    rw [ih, min_update_eq_omin, omin_assoc, ← min_or_none_cons]

theorem foldl_statStep_tonn (l : List SegRow) :
    ∀ (s : LinkStats),
    (l.foldl statStep s).tonn = omin s.tonn (min_or_none (l.map SegRow.tonn)) := by
  induction l with
  | nil => intro s; rw [List.map_nil, min_or_none_nil, omin_none_right]; rfl
  | cons r t ih =>
    intro s
    show (t.foldl statStep (statStep s r)).tonn = _
    rw [ih, statStep_tonn, min_update_eq_omin, omin_assoc, List.map_cons,
      min_or_none_cons]

theorem foldl_statStep_len (l : List SegRow) :
    ∀ (s : LinkStats),
    (l.foldl statStep s).len = omin s.len (min_or_none (l.map SegRow.len)) := by
  induction l with
  | nil => intro s; rw [List.map_nil, min_or_none_nil, omin_none_right]; rfl
  | cons r t ih =>
    intro s
    show (t.foldl statStep (statStep s r)).len = _
    rw [ih, statStep_len, min_update_eq_omin, omin_assoc, List.map_cons,
      min_or_none_cons]

theorem foldl_statStep_hoy (l : List SegRow) :
    ∀ (s : LinkStats),
    (l.foldl statStep s).hoy = omin s.hoy (min_or_none (l.map SegRow.hoy)) := by
  induction l with
  | nil => intro s; rw [List.map_nil, min_or_none_nil, omin_none_right]; rfl
  | cons r t ih =>
    intro s
    show (t.foldl statStep (statStep s r)).hoy = _
    rw [ih, statStep_hoy, min_update_eq_omin, omin_assoc, List.map_cons,
      min_or_none_cons]

theorem foldl_statStep_bru_dim (l : List SegRow) :
    ∀ (s : LinkStats),
    (l.foldl statStep s).has_bru_dim
      = (s.has_bru_dim
         || l.any (fun r => decide (dims_kilde_for_segment r.bk r.bru = some "BRU"))) := by
  induction l with
  | nil => intro s; simp
  | cons r t ih =>
    intro s
    show (t.foldl statStep (statStep s r)).has_bru_dim = _
    rw [ih]
    simp [statStep, Bool.or_assoc]

theorem foldl_statStep_has_any (l : List SegRow) :
    ∀ (s : LinkStats),
    (l.foldl statStep s).has_any = (s.has_any || !l.isEmpty) := by
  induction l with
  | nil => intro s; simp
  | cons r t ih =>
    intro s
    show (t.foldl statStep (statStep s r)).has_any = _
    rw [ih]
    simp [statStep]

/-- `dims_kilde_for_segment` says "BRU" exactly under the claim's condition:
bridge value at most the road value, or road value absent while the bridge
value is present. -/
theorem dims_kilde_bru_iff (bk bru : Option ℚ) :
    dims_kilde_for_segment bk bru = some "BRU"
      ↔ ((∃ b k, bru = some b ∧ bk = some k ∧ b ≤ k)
         ∨ (bk = none ∧ bru ≠ none)) := by
  cases bk with
  | none =>
    cases bru with
    | none => simp [dims_kilde_for_segment]
    | some b => simp [dims_kilde_for_segment]
  | some k =>
    cases bru with
    | none => simp [dims_kilde_for_segment]
    | some b =>
      by_cases hb : b ≤ k
      · simp [dims_kilde_for_segment, hb]
      · simp [dims_kilde_for_segment, hb]

theorem ite_bru_eq (b : Bool) : (if b then "BRU" else "VEG") = "BRU" ↔ b = true := by
  cases b
  · simp only [if_neg Bool.false_ne_true, Bool.false_eq_true, iff_false]
    intro h
    exact absurd h (by decide)
  · simp

/-- C7: every segment sharing a `VEGLENKESEKV_ID` receives the minimum of
the non-`None` per-segment values over all segments with that id as its
propagated weight/length/height, and the corridor `DIM_KILDE` is "BRU"
exactly when some segment of the link is bridge-dimensioned (bridge value at
most road value, or road value absent while the bridge value is present),
otherwise "VEG". -/
theorem c7_corridor_propagation (rows : List SegRow) (vid : Int)
    (hmem : vid ∈ rows.map SegRow.vid) :
    ∃ s, collectStats rows vid = some s
      ∧ s.tonn = min_or_none ((rows.filter (fun r => r.vid = vid)).map SegRow.tonn)
      ∧ s.len = min_or_none ((rows.filter (fun r => r.vid = vid)).map SegRow.len)
      ∧ s.hoy = min_or_none ((rows.filter (fun r => r.vid = vid)).map SegRow.hoy)
      ∧ (korridorDim (collectStats rows) vid = "BRU"
          ↔ ∃ r ∈ rows, r.vid = vid
              ∧ ((∃ b k, r.bru = some b ∧ r.bk = some k ∧ b ≤ k)
                 ∨ (r.bk = none ∧ r.bru ≠ none)))
      ∧ (korridorDim (collectStats rows) vid ≠ "BRU"
          → korridorDim (collectStats rows) vid = "VEG")
      ∧ (∀ r ∈ rows, r.vid = vid →
          segOutFor (collectStats rows) r
            = ⟨s.tonn, s.len, s.hoy,
               some (korridorDim (collectStats rows) vid), "JA"⟩) := by
  obtain ⟨r0, hr0, hr0v⟩ := List.mem_map.mp hmem
  have hr0f : r0 ∈ rows.filter (fun r => r.vid = vid) :=
    List.mem_filter.mpr ⟨hr0, by simp [hr0v]⟩
  have hlook : collectStats rows vid
      = (rows.filter (fun r => r.vid = vid)).foldl
          (fun acc r => some (statStep (acc.getD LinkStats.init) r)) none := by
    unfold collectStats
    rw [foldl_statMapStep_lookup]
  cases hfl : rows.filter (fun r => r.vid = vid) with
  | nil => rw [hfl] at hr0f; simp at hr0f
  | cons q t =>
    have hsome : collectStats rows vid
        = some ((q :: t).foldl statStep LinkStats.init) := by
      rw [hlook, hfl]
      show t.foldl _ (some (statStep LinkStats.init q)) = _
      rw [foldl_optStep]
      rfl
    have hdim : korridorDim (collectStats rows) vid
        = if ((q :: t).foldl statStep LinkStats.init).has_bru_dim
          then "BRU" else "VEG" := by
      unfold korridorDim
      rw [hsome]
    refine ⟨(q :: t).foldl statStep LinkStats.init, hsome, ?_, ?_, ?_, ?_, ?_, ?_⟩
    · rw [foldl_statStep_tonn]
      rfl
    · rw [foldl_statStep_len]
      rfl
    · rw [foldl_statStep_hoy]
      rfl
    · rw [hdim, ite_bru_eq, foldl_statStep_bru_dim]
      rw [show LinkStats.init.has_bru_dim = false from rfl, Bool.false_or]
      rw [List.any_eq_true]
      constructor
      · rintro ⟨r, hr, hPr⟩
        have hrf : r ∈ rows.filter (fun r => r.vid = vid) := by
          rw [hfl]; exact hr
        have hmf := List.mem_filter.mp hrf
        refine ⟨r, hmf.1, by simpa using hmf.2, ?_⟩
        exact (dims_kilde_bru_iff r.bk r.bru).mp (by simpa using hPr)
      · rintro ⟨r, hr, hrv, hcond⟩
        refine ⟨r, ?_, ?_⟩
        · have : r ∈ rows.filter (fun r => r.vid = vid) :=
            List.mem_filter.mpr ⟨hr, by simp [hrv]⟩
          rwa [hfl] at this
        · simpa using (dims_kilde_bru_iff r.bk r.bru).mpr hcond
    · rw [hdim]
      cases hbd : ((q :: t).foldl statStep LinkStats.init).has_bru_dim
      · intro _
        simp
      · intro hne
        exact absurd (by simp) hne
    · intro r hr hrv
      have hany : ((q :: t).foldl statStep LinkStats.init).has_any = true := by
        rw [foldl_statStep_has_any]
        simp
      have hany' : (List.foldl statStep (statStep LinkStats.init q) t).has_any
          = true := hany
      unfold segOutFor
      rw [hrv, hsome, hdim]
      simp [hany, hany']

/-- Witness for C7: two segments on link 5 — the first bridge-dimensioned
(bridge 40 <= road 50). -/
theorem c7_corridor_propagation_witness :
    ∃ s, collectStats [⟨5, some 50, some 50, some 40, some 24, none⟩,
                       ⟨5, some 60, some 60, none, none, some (9/2)⟩] 5 = some s
      ∧ s.tonn = min_or_none ((([⟨5, some 50, some 50, some 40, some 24, none⟩,
            ⟨5, some 60, some 60, none, none, some (9/2)⟩] :
            List SegRow).filter (fun r => r.vid = 5)).map SegRow.tonn)
      ∧ s.len = min_or_none ((([⟨5, some 50, some 50, some 40, some 24, none⟩,
            ⟨5, some 60, some 60, none, none, some (9/2)⟩] :
            List SegRow).filter (fun r => r.vid = 5)).map SegRow.len)
      ∧ s.hoy = min_or_none ((([⟨5, some 50, some 50, some 40, some 24, none⟩,
            ⟨5, some 60, some 60, none, none, some (9/2)⟩] :
            List SegRow).filter (fun r => r.vid = 5)).map SegRow.hoy)
      ∧ (korridorDim (collectStats [⟨5, some 50, some 50, some 40, some 24, none⟩,
            ⟨5, some 60, some 60, none, none, some (9/2)⟩]) 5 = "BRU"
          ↔ ∃ r ∈ ([⟨5, some 50, some 50, some 40, some 24, none⟩,
            ⟨5, some 60, some 60, none, none, some (9/2)⟩] : List SegRow),
              r.vid = 5
              ∧ ((∃ b k, r.bru = some b ∧ r.bk = some k ∧ b ≤ k)
                 ∨ (r.bk = none ∧ r.bru ≠ none)))
      ∧ (korridorDim (collectStats [⟨5, some 50, some 50, some 40, some 24, none⟩,
            ⟨5, some 60, some 60, none, none, some (9/2)⟩]) 5 ≠ "BRU"
          → korridorDim (collectStats [⟨5, some 50, some 50, some 40, some 24, none⟩,
            ⟨5, some 60, some 60, none, none, some (9/2)⟩]) 5 = "VEG")
      ∧ (∀ r ∈ ([⟨5, some 50, some 50, some 40, some 24, none⟩,
            ⟨5, some 60, some 60, none, none, some (9/2)⟩] : List SegRow),
          r.vid = 5 →
          segOutFor (collectStats [⟨5, some 50, some 50, some 40, some 24, none⟩,
              ⟨5, some 60, some 60, none, none, some (9/2)⟩]) r
            = ⟨s.tonn, s.len, s.hoy,
               some (korridorDim (collectStats
                 [⟨5, some 50, some 50, some 40, some 24, none⟩,
                  ⟨5, some 60, some 60, none, none, some (9/2)⟩]) 5), "JA"⟩) :=
  c7_corridor_propagation
    [⟨5, some 50, some 50, some 40, some 24, none⟩,
     ⟨5, some 60, some 60, none, none, some (9/2)⟩] 5 (by simp)

/-! ### Claim C8: `safe_insert` (`Normaltransport/nvdb_to_gdb_v904.py`) -/

/-- Embeds `safe_insert(cur, row, err_prefix, err_counter, max_print)`
(`nvdb_to_gdb_v904.py` lines 258-271, identical in `nvdb_to_gdb_v904_v2.py`):
`cur.insertRow(row)` is modelled as a function returning `Except` — the
`try/except` catches every exception as an `Except.error`, so nothing
propagates. Returns the new counter value and the messages printed: on
success nothing changes; on failure the counter grows by one and the message
`f"{err_prefix}: {e}"` is printed only while the counter is at most
`max_print`. -/
def safe_insert {ρ : Type} (ins : ρ → Except String Unit) (row : ρ)
    (errPfx : String) (max_print : Nat) (n : Nat) : Nat × List String :=
  match ins row with
  | Except.ok _ => (n, [])
  | Except.error e =>
    (n + 1, if n + 1 ≤ max_print then [errPfx ++ ": " ++ e] else [])

/-- A batch of `safe_insert` calls sharing one `err_counter` dict, as the
fetch loops of `nvdb_to_gdb_v904.py` run them: the loop body never aborts, so
the fold visits every row. -/
def insert_batch {ρ : Type} (ins : ρ → Except String Unit) (rows : List ρ)
    (errPfx : String) (max_print : Nat) (st : Nat × List String) :
    Nat × List String :=
  rows.foldl (fun acc row =>
    let r := safe_insert ins row errPfx max_print acc.1
    (r.1, acc.2 ++ r.2)) st

/-- The rows whose `insertRow` raises. -/
def failsCount {ρ : Type} (ins : ρ → Except String Unit) (rows : List ρ) : Nat :=
  (rows.filter (fun row =>
    match ins row with
    | Except.ok _ => false
    | Except.error _ => true)).length

theorem insert_batch_spec {ρ : Type} (ins : ρ → Except String Unit)
    (rows : List ρ) (errPfx : String) (mp : Nat) :
    ∀ (n0 : Nat) (logs0 : List String),
    (insert_batch ins rows errPfx mp (n0, logs0)).1 = n0 + failsCount ins rows
    ∧ (insert_batch ins rows errPfx mp (n0, logs0)).2.length
        = logs0.length + (min mp (n0 + failsCount ins rows) - min mp n0) := by
  induction rows with
  | nil =>
    intro n0 logs0
    simp [insert_batch, failsCount]
  | cons r t ih =>
    intro n0 logs0
    have hstep : insert_batch ins (r :: t) errPfx mp (n0, logs0)
        = insert_batch ins t errPfx mp
            ((safe_insert ins r errPfx mp n0).1,
             logs0 ++ (safe_insert ins r errPfx mp n0).2) := rfl
    cases hins : ins r with
    | ok u =>
      have hsi : safe_insert ins r errPfx mp n0 = (n0, []) := by
        simp [safe_insert, hins]
      have hF : failsCount ins (r :: t) = failsCount ins t := by
        simp [failsCount, List.filter_cons, hins]
      rw [hstep, hsi, hF]
      obtain ⟨h1, h2⟩ := ih n0 (logs0 ++ [])
      constructor
      · exact h1
      · rw [h2]
        simp
    | error e =>
      have hsi : safe_insert ins r errPfx mp n0
          = (n0 + 1, if n0 + 1 ≤ mp then [errPfx ++ ": " ++ e] else []) := by
        simp [safe_insert, hins]
      have hF : failsCount ins (r :: t) = failsCount ins t + 1 := by
        simp [failsCount, List.filter_cons, hins]
      rw [hstep, hsi, hF]
      obtain ⟨h1, h2⟩ := ih (n0 + 1)
        (logs0 ++ (if n0 + 1 ≤ mp then [errPfx ++ ": " ++ e] else []))
      constructor
      · rw [h1]
        omega
      · rw [h2]
        by_cases hle : n0 + 1 ≤ mp
        · simp only [hle, if_true, List.length_append, List.length_cons,
            List.length_nil]
          omega
        · simp only [hle, if_false, List.length_append, List.length_nil]
          omega

/-- C8: `safe_insert` never propagates an `insertRow` exception (the failure
is a returned value); on success it leaves the counter alone and prints
nothing, on failure it increments the counter by exactly one and prints only
while the counter is at most `max_print`; hence a batch visits every row,
ends with the counter equal to the number of failed rows and prints
`min(max_print, failures)` messages. -/
theorem c8_safe_insert (ρ : Type) (ins : ρ → Except String Unit)
    (rows : List ρ) (errPfx : String) (mp : Nat) :
    (∀ (row : ρ) (n : Nat),
      (∀ u, ins row = Except.ok u → safe_insert ins row errPfx mp n = (n, []))
      ∧ (∀ e, ins row = Except.error e →
          (safe_insert ins row errPfx mp n).1 = n + 1
          ∧ ((safe_insert ins row errPfx mp n).2 = []) = ¬ (n + 1 ≤ mp)))
    ∧ (insert_batch ins rows errPfx mp (0, [])).1 = failsCount ins rows
    ∧ (insert_batch ins rows errPfx mp (0, [])).2.length
        = min mp (failsCount ins rows) := by
  refine ⟨?_, ?_, ?_⟩
  · intro row n
    constructor
    · intro u hu
      simp [safe_insert, hu]
    · intro e he
      refine ⟨by simp [safe_insert, he], ?_⟩
      by_cases hle : n + 1 ≤ mp
      · simp [safe_insert, he, hle]
      · simp [safe_insert, he, hle]
  · have h := (insert_batch_spec ins rows errPfx mp 0 []).1
    rw [h]
    omega
  · have h := (insert_batch_spec ins rows errPfx mp 0 []).2
    rw [h]
    simp

/-! ### Claim C9: `iter_paged` (`Normaltransport/nvdb_to_gdb_v904.py`) -/

/-- One successfully fetched JSON page: its `objekter` list and the optional
`metadata.neste.start` / `metadata.neste.href` tokens. The HTTP retry loop is
out of scope here — `fetch` models the page a successful `session.get`
returns. -/
structure Page (α : Type) where
  objekter : List α
  neste_start : Option String
  neste_href : Option String

/-- Embeds the pagination loop of `iter_paged` (`nvdb_to_gdb_v904.py` lines
70-150), one call per loop iteration, instrumented with the number of pages
fetched (the first component). The loop state: the `start` token, the current
url, the `seen_starts`/`seen_hrefs` sets, the page counter and the objects
yielded so far. `page + 1 > max_pages` raises (`Except.error`) before
fetching; an empty page, a repeated token or a page with no token returns
normally. The guard also certifies termination for every `fetch`. -/
def iter_paged_go {α : Type} (fetch : String → Option String → Page α)
    (max_pages : Nat) (start : Option String) (next_url : String)
    (seen_starts seen_hrefs : List String) (page : Nat) (acc : List α) :
    Nat × Except String (List α) :=
  if _hpg : max_pages < page + 1 then
    (0, Except.error "Stoppet etter max_pages sider (sikkerhetsbryter).")
  else
    if (fetch next_url start).objekter.isEmpty then (1, Except.ok acc)
    else
      match (fetch next_url start).neste_start with
      | some s =>
        if s ∈ seen_starts then (1, Except.ok (acc ++ (fetch next_url start).objekter))
        else
          ((iter_paged_go fetch max_pages (some s) next_url
              (s :: seen_starts) seen_hrefs (page + 1)
              (acc ++ (fetch next_url start).objekter)).1 + 1,
           (iter_paged_go fetch max_pages (some s) next_url
              (s :: seen_starts) seen_hrefs (page + 1)
              (acc ++ (fetch next_url start).objekter)).2)
      | none =>
        match (fetch next_url start).neste_href with
        | some href =>
          if href ∈ seen_hrefs then (1, Except.ok (acc ++ (fetch next_url start).objekter))
          else
            ((iter_paged_go fetch max_pages none href
                seen_starts (href :: seen_hrefs) (page + 1)
                (acc ++ (fetch next_url start).objekter)).1 + 1,
             (iter_paged_go fetch max_pages none href
                seen_starts (href :: seen_hrefs) (page + 1)
                (acc ++ (fetch next_url start).objekter)).2)
        | none => (1, Except.ok (acc ++ (fetch next_url start).objekter))
termination_by max_pages - page
decreasing_by
  all_goals omega

/-- `iter_paged(session, url, params, ...)` as the generator is entered:
no `start` token, empty seen-sets, page counter 0. -/
def iter_paged {α : Type} (fetch : String → Option String → Page α)
    (max_pages : Nat) (url : String) : Nat × Except String (List α) :=
  iter_paged_go fetch max_pages none url [] [] 0 []

theorem iter_paged_go_bound {α : Type} (fetch : String → Option String → Page α)
    (max_pages : Nat) : ∀ (fuel : Nat) (start : Option String)
    (next_url : String) (ss hh : List String) (page : Nat) (acc : List α),
    max_pages - page = fuel →
    (iter_paged_go fetch max_pages start next_url ss hh page acc).1
      ≤ max_pages - page
    ∧ (∀ e, (iter_paged_go fetch max_pages start next_url ss hh page acc).2
          = Except.error e →
        (iter_paged_go fetch max_pages start next_url ss hh page acc).1
          = max_pages - page) := by
  intro fuel
  induction fuel with
  | zero =>
    intro start next_url ss hh page acc hf
    have hpg : max_pages < page + 1 := by omega
    rw [iter_paged_go, dif_pos hpg]
    exact ⟨by simp, fun e _ => by simp; omega⟩
  | succ n ih =>
    intro start next_url ss hh page acc hf
    have hpg : ¬ (max_pages < page + 1) := by omega
    rw [iter_paged_go, dif_neg hpg]
    by_cases hobj : (fetch next_url start).objekter.isEmpty
    · rw [if_pos hobj]
      exact ⟨by simp; omega, fun e he => by simp at he⟩
    · rw [if_neg hobj]
      cases hns : (fetch next_url start).neste_start with
      | some s =>
        by_cases hseen : s ∈ ss
        · refine ⟨by simp [hseen]; omega, fun e he => by simp [hseen] at he⟩
        · have hrec := ih (some s) next_url (s :: ss) hh (page + 1)
            (acc ++ (fetch next_url start).objekter) (by omega)
          have h1 := hrec.1
          refine ⟨?_, ?_⟩
          · simp only [hseen, if_false]
            omega
          · intro e he
            simp only [hseen, if_false] at he ⊢
            have h2 := hrec.2 e he
            omega
      | none =>
        cases hnh : (fetch next_url start).neste_href with
        | some href =>
          by_cases hseen : href ∈ hh
          · refine ⟨by simp [hseen]; omega, fun e he => by simp [hseen] at he⟩
          · have hrec := ih none href ss (href :: hh) (page + 1)
              (acc ++ (fetch next_url start).objekter) (by omega)
            have h1 := hrec.1
            refine ⟨?_, ?_⟩
            · simp only [hseen, if_false]
              omega
            · intro e he
              simp only [hseen, if_false] at he ⊢
              have h2 := hrec.2 e he
              omega
        | none =>
          refine ⟨by simp; omega, fun e he => by simp at he⟩

/-- C9: for every server behaviour the generator terminates (it is a total
function here, with the page counter as the decreasing measure): it fetches
at most `max_pages` pages, raises the `RuntimeError` only after having
fetched exactly `max_pages` pages, and stops normally on a page with no
objects, on a missing next token, or on a repeated `start`/`href` token. -/
theorem c9_iter_paged_termination (α : Type)
    (fetch : String → Option String → Page α) (max_pages : Nat) (url : String)
    (start : Option String) (next_url : String) (ss hh : List String)
    (page : Nat) (acc : List α) :
    (iter_paged fetch max_pages url).1 ≤ max_pages
    ∧ (∀ e, (iter_paged fetch max_pages url).2 = Except.error e →
        (iter_paged fetch max_pages url).1 = max_pages)
    ∧ (page < max_pages →
        ((fetch next_url start).objekter = [] →
          iter_paged_go fetch max_pages start next_url ss hh page acc
            = (1, Except.ok acc))
        ∧ ((fetch next_url start).objekter ≠ [] →
            (fetch next_url start).neste_start = none →
            (fetch next_url start).neste_href = none →
            iter_paged_go fetch max_pages start next_url ss hh page acc
              = (1, Except.ok (acc ++ (fetch next_url start).objekter)))
        ∧ (∀ s, (fetch next_url start).objekter ≠ [] →
            (fetch next_url start).neste_start = some s → s ∈ ss →
            iter_paged_go fetch max_pages start next_url ss hh page acc
              = (1, Except.ok (acc ++ (fetch next_url start).objekter)))
        ∧ (∀ href, (fetch next_url start).objekter ≠ [] →
            (fetch next_url start).neste_start = none →
            (fetch next_url start).neste_href = some href → href ∈ hh →
            iter_paged_go fetch max_pages start next_url ss hh page acc
              = (1, Except.ok (acc ++ (fetch next_url start).objekter)))) := by
  have hb := iter_paged_go_bound fetch max_pages (max_pages - 0) none url
    [] [] 0 [] rfl
  refine ⟨?_, ?_, ?_⟩
  · have h1 := hb.1
    simpa [iter_paged] using h1
  · intro e he
    have h2 := hb.2 e (by simpa [iter_paged] using he)
    simpa [iter_paged] using h2
  · intro hpage
    have hpg : ¬ (max_pages < page + 1) := by omega
    refine ⟨?_, ?_, ?_, ?_⟩
    · intro hobj
      rw [iter_paged_go, dif_neg hpg]
      simp [hobj]
    · intro hobj hns hnh
      rw [iter_paged_go, dif_neg hpg]
      have hobj' : (fetch next_url start).objekter.isEmpty = false := by
        simpa using hobj
      simp [hobj', hns, hnh]
    · intro s hobj hns hseen
      rw [iter_paged_go, dif_neg hpg]
      have hobj' : (fetch next_url start).objekter.isEmpty = false := by
        simpa using hobj
      simp [hobj', hns, hseen]
    · intro href hobj hns hnh hseen
      rw [iter_paged_go, dif_neg hpg]
      have hobj' : (fetch next_url start).objekter.isEmpty = false := by
        simpa using hobj
      simp [hobj', hns, hnh, hseen]

end Mrfylke
